import Mathlib

/-!
Shallow embedding of the notake note store and its API route handlers.

The persisted state is the `note` table (`lib/db/schema.ts`), modelled as a
`List Note`.  Timestamps are `Nat`; the nullable `deletedAt` column is
`Option Nat`.  Each route handler becomes a pure function on the table:

* `listNotes`    — `GET  /api/notes`            (`src/app/api/notes/route.ts`)
* `getById`      — `GET  /api/notes/[id]`       (`app/api/notes/[id]/route.ts`)
* `softDelete`   — `DELETE /api/notes/[id]`     (same file)
* `restoreNote`  — `POST /api/notes/[id]/restore`
* `bulkRestore`  — `POST /api/notes/restore`

SQL semantics are modelled explicitly: `WHERE` is `List.filter`,
`ORDER BY … DESC` is a stable `mergeSort` on the ordering key,
`LIMIT k` is `List.take k`, and `UPDATE … WHERE … RETURNING` maps the
update over every matching row.  A handler that answers with an error
status instead of a page returns `none` / reports `none` for the row.
-/

/-- A row of the `note` table: id (primary key), title, nullable content,
owning user, created/updated timestamps, and the nullable soft-delete
timestamp (`null` ⇔ the note is active). -/
structure Note where
  id : String
  title : String
  content : Option String
  userId : String
  createdAt : Nat
  updatedAt : Nat
  deletedAt : Option Nat
  deriving DecidableEq, Repr

/-- Ordering key used by the list query: `deletedAt` for the trash view,
`createdAt` for the active view.  Rows in the trash view always have
`deletedAt` non-null, so the default value is never observed there. -/
def keyOf (deleted : Bool) (n : Note) : Nat :=
  if deleted then n.deletedAt.getD 0 else n.createdAt

/-- The owner + partition conditions of the list query:
`eq(note.userId, session.user.id)` and `isNotNull`/`isNull(note.deletedAt)`. -/
def baseCond (uid : String) (deleted : Bool) (n : Note) : Bool :=
  n.userId == uid && (if deleted then n.deletedAt.isSome else n.deletedAt.isNone)

/-- The optional keyset bound pushed by cursor resolution:
`lt(timestampField, cursorTimestamp)`. -/
def boundCond (deleted : Bool) (bound : Option Nat) (n : Note) : Bool :=
  match bound with
  | some b => decide (keyOf deleted n < b)
  | none => true

/-- Full `WHERE` clause of the list query. -/
def viewCond (uid : String) (deleted : Bool) (bound : Option Nat) (n : Note) : Bool :=
  baseCond uid deleted n && boundCond deleted bound n

/-- Model of `ORDER BY orderByField DESC`: any permutation sorted descending on the
ordering key models the SQL sort (SQL fixes no order among equal keys);
an insertion sort keeps the model kernel-computable. -/
def sortDesc (deleted : Bool) (l : List Note) : List Note :=
  List.insertionSort (fun a b => keyOf deleted b ≤ keyOf deleted a) l

/-- The list query without `LIMIT`: filter by owner, partition and optional
cursor bound, then order by the partition's timestamp descending. -/
def queryRows (db : List Note) (uid : String) (deleted : Bool) (bound : Option Nat) :
    List Note :=
  sortDesc deleted (db.filter (viewCond uid deleted bound))

/-- Cursor resolution (`route.ts` lines 30–48): look the cursor id up in the
table — by id only, with no owner condition — and read back `deletedAt`
(trash view) or `createdAt` (active view).  A missing row, or a null
timestamp, yields no bound. -/
def resolveBound (db : List Note) (deleted : Bool) (cursor : Option String) :
    Option Nat :=
  match cursor with
  | none => none
  | some c =>
    match db.find? (fun n => n.id == c) with
    | none => none
    | some n => if deleted then n.deletedAt else some n.createdAt

/-- Limit resolution, `Math.min(Number(searchParams.get("limit")) || 20, 50)`.  An absent or
non-numeric parameter reads as `0` and the JS `||` replaces any `0` by the
default `20`; the hard cap is `50`. -/
def resolveLimit (limitParam : Option Int) : Int :=
  min (if limitParam.getD 0 == 0 then 20 else limitParam.getD 0) 50

/-- The JSON body of a successful list response. -/
structure ListResult where
  notes : List Note
  nextCursor : Option String
  deriving DecidableEq, Repr

/-- Handler for `GET /api/notes`: resolve the limit and the cursor bound, fetch
`limit + 1` rows (the has-more probe), trim to `limit`, and emit the last
returned row's id as `nextCursor` exactly when the probe row existed.
A negative resolved limit makes the handler error out (Postgres rejects a
negative `LIMIT`, and the `results[results.length - 1]` read throws on the
empty page produced by `LIMIT 0`), so that case returns `none` rather than
a page. -/
def listNotes (db : List Note) (uid : String) (deleted : Bool)
    (limitParam : Option Int) (cursor : Option String) : Option ListResult :=
  let lim := resolveLimit limitParam
  if lim < 1 then none
  else
    let limit := lim.toNat
    let fetched := (queryRows db uid deleted (resolveBound db deleted cursor)).take (limit + 1)
    if limit < fetched.length then
      let results := fetched.take limit
      some ⟨results, results.getLast?.map (fun n => n.id)⟩
    else
      some ⟨fetched, none⟩

/-- Follow `nextCursor` page after page, concatenating the pages; `fuel`
bounds the number of requests.  Returns `none` if a page errors or the
fuel runs out. -/
def paginateFrom (db : List Note) (uid : String) (deleted : Bool)
    (limitParam : Option Int) : Nat → Option String → Option (List Note)
  | 0, _ => none
  | fuel + 1, cursor =>
    match listNotes db uid deleted limitParam cursor with
    | none => none
    | some r =>
      match r.nextCursor with
      | none => some r.notes
      | some c => (paginateFrom db uid deleted limitParam fuel (some c)).map (r.notes ++ ·)

/-- Full pagination of one view, starting from no cursor. -/
def listAll (db : List Note) (uid : String) (deleted : Bool)
    (limitParam : Option Int) (fuel : Nat) : Option (List Note) :=
  paginateFrom db uid deleted limitParam fuel none

/-- Handler for `GET /api/notes/[id]`: select the row matching id and owner — with no
condition on `deletedAt` — answering 404 (`none`) when there is none. -/
def getById (db : List Note) (uid : String) (i : String) : Option Note :=
  db.find? (fun n => n.id == i && n.userId == uid)

/-- Row update performed by `DELETE /api/notes/[id]`. -/
def softDeleteUpd (uid : String) (i : String) (now : Nat) (n : Note) : Note :=
  if n.id == i && n.userId == uid then { n with deletedAt := some now, updatedAt := now }
  else n

/-- Handler for `DELETE /api/notes/[id]`: `UPDATE note SET deletedAt = now,
updatedAt = now WHERE id = i AND userId = uid RETURNING *`; 404 (`none`
return value) when no row matched.  Returns the new table and the updated
row. -/
def softDelete (db : List Note) (uid : String) (i : String) (now : Nat) :
    List Note × Option Note :=
  (db.map (softDeleteUpd uid i now),
   (db.find? (fun n => n.id == i && n.userId == uid)).map (softDeleteUpd uid i now))

/-- Row update performed by the restore endpoints. -/
def restoreUpd (uid : String) (i : String) (now : Nat) (n : Note) : Note :=
  if n.id == i && n.userId == uid then { n with deletedAt := none, updatedAt := now }
  else n

/-- Handler for `POST /api/notes/[id]/restore`: first select the row matching id, owner
and `deletedAt IS NOT NULL`; if none, answer 404 with no mutation.
Otherwise run `UPDATE note SET deletedAt = null, updatedAt = now WHERE
id = i AND userId = uid RETURNING *` (the update's own `WHERE` has no
deleted-state condition) and return the updated row. -/
def restoreNote (db : List Note) (uid : String) (i : String) (now : Nat) :
    List Note × Option Note :=
  match db.find? (fun n => n.id == i && n.userId == uid && n.deletedAt.isSome) with
  | none => (db, none)
  | some _ =>
    (db.map (restoreUpd uid i now),
     (db.find? (fun n => n.id == i && n.userId == uid)).map (restoreUpd uid i now))

/-- A JSON value appearing in the `noteIds` array of the bulk-restore body:
either a string or something else. -/
inductive JVal where
  | jstr (s : String)
  | jother
  deriving DecidableEq, Repr

/-- Whether a body entry is a string (`typeof id === "string"`). -/
def JVal.isStr : JVal → Bool
  | .jstr _ => true
  | .jother => false

/-- The string carried by a body entry, if any. -/
def JVal.asStr : JVal → Option String
  | .jstr s => some s
  | .jother => none

/-- Match condition of the bulk-restore `UPDATE`: id in the request list,
owned by the caller, and currently deleted. -/
def bulkCond (uid : String) (ids : List String) (n : Note) : Bool :=
  ids.contains n.id && n.userId == uid && n.deletedAt.isSome

/-- Handler for `POST /api/notes/restore`: reject (400, `none`) an empty `noteIds`
array or one containing a non-string; otherwise run one `UPDATE … WHERE
id IN noteIds AND userId = uid AND deletedAt IS NOT NULL RETURNING *` and
answer with the new table and the number of rows restored. -/
def bulkRestore (db : List Note) (uid : String) (noteIds : List JVal) (now : Nat) :
    Option (List Note × Nat) :=
  if noteIds.isEmpty then none
  else if ! noteIds.all JVal.isStr then none
  else
    let ids := noteIds.filterMap JVal.asStr
    some (db.map (fun n => if bulkCond uid ids n then { n with deletedAt := none, updatedAt := now } else n),
      (db.filter (bulkCond uid ids)).length)

/-- Projection to the fields that lifecycle operations must never change:
id, title, content, createdAt and owner. -/
def frameKey (n : Note) : String × String × Option String × Nat × String :=
  (n.id, n.title, n.content, n.createdAt, n.userId)

/-! ## Helper lemmas about the sorted query -/

theorem sortDesc_perm (d : Bool) (l : List Note) : (sortDesc d l).Perm l :=
  List.perm_insertionSort _ l

theorem mem_sortDesc {d : Bool} {l : List Note} {n : Note} :
    n ∈ sortDesc d l ↔ n ∈ l :=
  (sortDesc_perm d l).mem_iff

theorem sortDesc_pairwise_le (d : Bool) (l : List Note) :
    (sortDesc d l).Pairwise (fun a b => keyOf d b ≤ keyOf d a) := by
  haveI : IsTotal Note (fun a b => keyOf d b ≤ keyOf d a) :=
    ⟨fun a b => (Nat.le_total (keyOf d b) (keyOf d a)).imp id id⟩
  haveI : IsTrans Note (fun a b => keyOf d b ≤ keyOf d a) :=
    ⟨fun _ _ _ hab hbc => le_trans hbc hab⟩
  exact List.sorted_insertionSort _ l

theorem sortDesc_pairwise_lt {d : Bool} {l : List Note}
    (h : (l.map (keyOf d)).Nodup) :
    (sortDesc d l).Pairwise (fun a b => keyOf d b < keyOf d a) := by
  have hle := sortDesc_pairwise_le d l
  have hnd : ((sortDesc d l).map (keyOf d)).Nodup :=
    (((sortDesc_perm d l).map (keyOf d)).nodup_iff).mpr h
  have hne : (sortDesc d l).Pairwise (fun a b => keyOf d a ≠ keyOf d b) :=
    List.pairwise_map.mp hnd
  exact (hle.and hne).imp (fun hab => lt_of_le_of_ne hab.1 (Ne.symm hab.2))

theorem keyGT_antisymm (d : Bool) :
    IsAntisymm Note (fun a b => keyOf d b < keyOf d a) :=
  ⟨fun _ _ h1 h2 => absurd h1 (Nat.lt_asymm h2)⟩

theorem eq_of_perm_of_pairwise_lt (d : Bool) {l₁ l₂ : List Note} (hp : l₁.Perm l₂)
    (h₁ : l₁.Pairwise (fun a b => keyOf d b < keyOf d a))
    (h₂ : l₂.Pairwise (fun a b => keyOf d b < keyOf d a)) : l₁ = l₂ :=
  @List.eq_of_perm_of_sorted _ _ (keyGT_antisymm d) _ _ hp h₁ h₂

theorem sortDesc_filter {d : Bool} {l : List Note} (p : Note → Bool)
    (h : (l.map (keyOf d)).Nodup) :
    sortDesc d (l.filter p) = (sortDesc d l).filter p := by
  apply eq_of_perm_of_pairwise_lt d
  · exact (sortDesc_perm d _).trans ((sortDesc_perm d l).filter p).symm
  · exact sortDesc_pairwise_lt
      (h.sublist (List.Sublist.map _ (List.filter_sublist l)))
  · exact (sortDesc_pairwise_lt h).filter p

theorem mem_queryRows {db : List Note} {uid : String} {d : Bool} {bound : Option Nat}
    {n : Note} :
    n ∈ queryRows db uid d bound ↔ n ∈ db ∧ viewCond uid d bound n = true := by
  rw [queryRows, mem_sortDesc, List.mem_filter]

theorem filter_viewCond_none (db : List Note) (uid : String) (d : Bool) :
    db.filter (viewCond uid d none) = db.filter (baseCond uid d) := by
  apply List.filter_congr
  intro x _
  simp [viewCond, boundCond]

theorem queryRows_bound_eq (db : List Note) (uid : String) (d : Bool) (bound : Option Nat)
    (hk : ((db.filter (baseCond uid d)).map (keyOf d)).Nodup) :
    queryRows db uid d bound = (queryRows db uid d none).filter (boundCond d bound) := by
  unfold queryRows
  have h1 : db.filter (viewCond uid d bound)
      = (db.filter (baseCond uid d)).filter (boundCond d bound) := by
    rw [List.filter_filter]
    apply List.filter_congr
    intro x _
    simp [viewCond, Bool.and_comm]
  rw [h1, filter_viewCond_none, sortDesc_filter _ hk]

theorem queryRows_none_pairwise_lt {db : List Note} {uid : String} {d : Bool}
    (hk : ((db.filter (baseCond uid d)).map (keyOf d)).Nodup) :
    (queryRows db uid d none).Pairwise (fun a b => keyOf d b < keyOf d a) := by
  rw [queryRows, filter_viewCond_none]
  exact sortDesc_pairwise_lt hk

theorem filter_lt_of_pairwise_lt {d : Bool} {t r : List Note} {c : Note}
    (h : (t ++ c :: r).Pairwise (fun a b => keyOf d b < keyOf d a)) :
    (t ++ c :: r).filter (fun n => decide (keyOf d n < keyOf d c)) = r := by
  have h12 := List.pairwise_append.mp h
  have hcr := List.pairwise_cons.mp h12.2.1
  have ht : t.filter (fun n => decide (keyOf d n < keyOf d c)) = [] := by
    rw [List.filter_eq_nil_iff]
    intro x hx
    have hlt : keyOf d c < keyOf d x := h12.2.2 x hx c (List.mem_cons_self _ _)
    simp only [decide_eq_true_eq]
    omega
  have hr : r.filter (fun n => decide (keyOf d n < keyOf d c)) = r := by
    rw [List.filter_eq_self]
    intro x hx
    simp only [decide_eq_true_eq]
    exact hcr.1 x hx
  rw [List.filter_append, List.filter_cons, ht, hr]
  simp

theorem find?_id_eq {db : List Note} {c : Note}
    (hids : (db.map Note.id).Nodup) (hc : c ∈ db) :
    db.find? (fun n => n.id == c.id) = some c := by
  cases hfind : db.find? (fun n => n.id == c.id) with
  | none =>
    rw [List.find?_eq_none] at hfind
    exact absurd (by simp : (c.id == c.id) = true) (hfind c hc)
  | some x =>
    have hx := List.find?_some hfind
    have hmem := List.mem_of_find?_eq_some hfind
    have hxc : x = c :=
      List.inj_on_of_nodup_map hids hmem hc (by simpa using hx)
    rw [hxc]

theorem resolveBound_self {db : List Note} {uid : String} {d : Bool} {c : Note}
    (hids : (db.map Note.id).Nodup) (hc : c ∈ db)
    (hbase : baseCond uid d c = true) :
    resolveBound db d (some c.id) = some (keyOf d c) := by
  rw [resolveBound]
  rw [find?_id_eq hids hc]
  cases d with
  | false => simp [keyOf]
  | true =>
    have hsome : c.deletedAt.isSome = true := by
      simp only [baseCond, Bool.and_eq_true] at hbase
      simpa using hbase.2
    obtain ⟨t, ht⟩ := Option.isSome_iff_exists.mp hsome
    simp [keyOf, ht]

theorem boundCond_some (d : Bool) (b : Nat) :
    boundCond d (some b) = fun n => decide (keyOf d n < b) := rfl

theorem listNotes_small {db : List Note} {uid : String} {d : Bool} {limP : Option Int}
    {cur : Option String}
    (h : 0 < resolveLimit limP)
    (hlen : (queryRows db uid d (resolveBound db d cur)).length ≤ (resolveLimit limP).toNat) :
    listNotes db uid d limP cur
      = some ⟨queryRows db uid d (resolveBound db d cur), none⟩ := by
  have h1 : ¬ (resolveLimit limP < 1) := by omega
  have htake : (queryRows db uid d (resolveBound db d cur)).take ((resolveLimit limP).toNat + 1)
      = queryRows db uid d (resolveBound db d cur) :=
    List.take_of_length_le (by omega)
  simp only [listNotes]
  rw [if_neg h1, htake, if_neg (by omega)]

theorem listNotes_big {db : List Note} {uid : String} {d : Bool} {limP : Option Int}
    {cur : Option String}
    (h : 0 < resolveLimit limP)
    (hlen : (resolveLimit limP).toNat < (queryRows db uid d (resolveBound db d cur)).length) :
    listNotes db uid d limP cur =
      some ⟨(queryRows db uid d (resolveBound db d cur)).take (resolveLimit limP).toNat,
        ((queryRows db uid d (resolveBound db d cur)).take (resolveLimit limP).toNat).getLast?.map
          (fun n => n.id)⟩ := by
  have h1 : ¬ (resolveLimit limP < 1) := by omega
  simp only [listNotes]
  rw [if_neg h1]
  have hcond : (resolveLimit limP).toNat <
      ((queryRows db uid d (resolveBound db d cur)).take ((resolveLimit limP).toNat + 1)).length := by
    rw [List.length_take]
    omega
  rw [if_pos hcond, List.take_take, Nat.min_eq_left (Nat.le_succ _)]

theorem paginateFrom_succ (db : List Note) (uid : String) (d : Bool) (limP : Option Int)
    (fuel : Nat) (cur : Option String) :
    paginateFrom db uid d limP (fuel + 1) cur =
      match listNotes db uid d limP cur with
      | none => none
      | some r =>
        match r.nextCursor with
        | none => some r.notes
        | some c => (paginateFrom db uid d limP fuel (some c)).map (r.notes ++ ·) := rfl

theorem paginateFrom_spec (db : List Note) (uid : String) (d : Bool) (limP : Option Int)
    (hids : (db.map Note.id).Nodup)
    (hk : ((db.filter (baseCond uid d)).map (keyOf d)).Nodup)
    (hlim : 0 < resolveLimit limP) :
    ∀ (fuel : Nat) (cur : Option String),
      (queryRows db uid d (resolveBound db d cur)).length < fuel →
      paginateFrom db uid d limP fuel cur
        = some (queryRows db uid d (resolveBound db d cur)) := by
  intro fuel
  induction fuel with
  | zero => intro cur hflen; omega
  | succ fuel ih =>
    intro cur hflen
    have hlimpos : 0 < (resolveLimit limP).toNat := by omega
    by_cases hsmall :
        (queryRows db uid d (resolveBound db d cur)).length ≤ (resolveLimit limP).toNat
    · rw [paginateFrom_succ, listNotes_small hlim hsmall]
    · push_neg at hsmall
      have htne : (queryRows db uid d (resolveBound db d cur)).take (resolveLimit limP).toNat ≠ [] := by
        intro hnil
        have := congrArg List.length hnil
        rw [List.length_take, List.length_nil] at this
        omega
      obtain ⟨c, hc⟩ := Option.isSome_iff_exists.mp (List.getLast?_isSome.mpr htne)
      obtain ⟨t, hdecomp⟩ := List.getLast?_eq_some_iff.mp hc
      have hcR : c ∈ queryRows db uid d (resolveBound db d cur) := by
        apply (List.take_sublist (resolveLimit limP).toNat _).subset
        rw [hdecomp]
        exact List.mem_append_right _ (by simp)
      obtain ⟨hcdb, hcview⟩ := mem_queryRows.mp hcR
      have hbasec : baseCond uid d c = true := by
        simp only [viewCond, Bool.and_eq_true] at hcview
        exact hcview.1
      have hboundc : boundCond d (resolveBound db d cur) c = true := by
        simp only [viewCond, Bool.and_eq_true] at hcview
        exact hcview.2
      have hres2 : resolveBound db d (some c.id) = some (keyOf d c) :=
        resolveBound_self hids hcdb hbasec
      have hRlt : (queryRows db uid d (resolveBound db d cur)).Pairwise
          (fun a b => keyOf d b < keyOf d a) := by
        rw [queryRows_bound_eq db uid d _ hk]
        exact (queryRows_none_pairwise_lt hk).filter _
      have hRdecomp : queryRows db uid d (resolveBound db d cur)
          = t ++ c :: (queryRows db uid d (resolveBound db d cur)).drop (resolveLimit limP).toNat := by
        conv_lhs => rw [← List.take_append_drop (resolveLimit limP).toNat
          (queryRows db uid d (resolveBound db d cur))]
        rw [hdecomp, List.append_assoc, List.singleton_append]
      have hfil : (queryRows db uid d (resolveBound db d cur)).filter
            (fun n => decide (keyOf d n < keyOf d c))
          = (queryRows db uid d (resolveBound db d cur)).drop (resolveLimit limP).toNat := by
        conv_lhs => rw [hRdecomp]
        exact filter_lt_of_pairwise_lt (hRdecomp ▸ hRlt)
      have hSfilter : (queryRows db uid d none).filter (fun n => decide (keyOf d n < keyOf d c))
          = ((queryRows db uid d none).filter (boundCond d (resolveBound db d cur))).filter
              (fun n => decide (keyOf d n < keyOf d c)) := by
        rw [List.filter_filter]
        apply List.filter_congr
        intro x _
        by_cases hx : decide (keyOf d x < keyOf d c) = true
        · have hxb : boundCond d (resolveBound db d cur) x = true := by
            cases hbnd : resolveBound db d cur with
            | none => rfl
            | some b =>
              rw [hbnd] at hboundc
              simp only [boundCond, decide_eq_true_eq] at hboundc ⊢
              simp only [decide_eq_true_eq] at hx
              omega
          rw [hx, hxb]
          rfl
        · simp only [Bool.not_eq_true] at hx
          rw [hx]
          simp
      have hnext : queryRows db uid d (some (keyOf d c))
          = (queryRows db uid d (resolveBound db d cur)).drop (resolveLimit limP).toNat := by
        rw [queryRows_bound_eq db uid d (some (keyOf d c)) hk, boundCond_some, hSfilter,
          ← queryRows_bound_eq db uid d (resolveBound db d cur) hk]
        exact hfil
      have hres := listNotes_big hlim hsmall
      rw [hc] at hres
      simp only [Option.map_some'] at hres
      have hlen2 : (queryRows db uid d (resolveBound db d (some c.id))).length < fuel := by
        rw [hres2, hnext, List.length_drop]
        omega
      rw [paginateFrom_succ, hres]
      show (paginateFrom db uid d limP fuel (some c.id)).map
        (((queryRows db uid d (resolveBound db d cur)).take (resolveLimit limP).toNat) ++ ·)
        = some (queryRows db uid d (resolveBound db d cur))
      rw [ih (some c.id) hlen2, hres2, hnext]
      simp only [Option.map_some']
      rw [List.take_append_drop]

theorem listAll_spec (db : List Note) (uid : String) (d : Bool) (limP : Option Int)
    (fuel : Nat)
    (hids : (db.map Note.id).Nodup)
    (hk : ((db.filter (baseCond uid d)).map (keyOf d)).Nodup)
    (hlim : 0 < resolveLimit limP)
    (hfuel : db.length < fuel) :
    listAll db uid d limP fuel = some (queryRows db uid d none) := by
  apply paginateFrom_spec db uid d limP hids hk hlim fuel none
  calc (queryRows db uid d (resolveBound db d none)).length
      = (db.filter (viewCond uid d none)).length := (sortDesc_perm _ _).length_eq
    _ ≤ db.length := List.length_filter_le _ _
    _ < fuel := hfuel

theorem queryRows_drop (db : List Note) (uid : String) (d : Bool) (bound : Option Nat)
    (hk : ((db.filter (baseCond uid d)).map (keyOf d)).Nodup)
    {L : Nat} {t : List Note} {c : Note}
    (hdecomp : (queryRows db uid d bound).take L = t ++ [c]) :
    queryRows db uid d (some (keyOf d c)) = (queryRows db uid d bound).drop L := by
  have hcR : c ∈ queryRows db uid d bound := by
    apply (List.take_sublist L _).subset
    rw [hdecomp]
    exact List.mem_append_right _ (by simp)
  obtain ⟨hcdb, hcview⟩ := mem_queryRows.mp hcR
  have hboundc : boundCond d bound c = true := by
    simp only [viewCond, Bool.and_eq_true] at hcview
    exact hcview.2
  have hRlt : (queryRows db uid d bound).Pairwise (fun a b => keyOf d b < keyOf d a) := by
    rw [queryRows_bound_eq db uid d _ hk]
    exact (queryRows_none_pairwise_lt hk).filter _
  have hRdecomp : queryRows db uid d bound
      = t ++ c :: (queryRows db uid d bound).drop L := by
    conv_lhs => rw [← List.take_append_drop L (queryRows db uid d bound)]
    rw [hdecomp, List.append_assoc, List.singleton_append]
  have hfil : (queryRows db uid d bound).filter (fun n => decide (keyOf d n < keyOf d c))
      = (queryRows db uid d bound).drop L := by
    conv_lhs => rw [hRdecomp]
    exact filter_lt_of_pairwise_lt (hRdecomp ▸ hRlt)
  have hSfilter : (queryRows db uid d none).filter (fun n => decide (keyOf d n < keyOf d c))
      = ((queryRows db uid d none).filter (boundCond d bound)).filter
          (fun n => decide (keyOf d n < keyOf d c)) := by
    rw [List.filter_filter]
    apply List.filter_congr
    intro x _
    by_cases hx : decide (keyOf d x < keyOf d c) = true
    · have hxb : boundCond d bound x = true := by
        cases hbnd : bound with
        | none => rfl
        | some b =>
          rw [hbnd] at hboundc
          simp only [boundCond, decide_eq_true_eq] at hboundc ⊢
          simp only [decide_eq_true_eq] at hx
          omega
      rw [hx, hxb]
      rfl
    · simp only [Bool.not_eq_true] at hx
      rw [hx]
      simp
  rw [queryRows_bound_eq db uid d (some (keyOf d c)) hk, boundCond_some, hSfilter,
    ← queryRows_bound_eq db uid d bound hk]
  exact hfil

theorem listNotes_pos {db : List Note} {uid : String} {d : Bool} {limP : Option Int}
    {cur : Option String} {r : ListResult}
    (h : listNotes db uid d limP cur = some r) : 0 < resolveLimit limP := by
  by_contra hneg
  push_neg at hneg
  simp only [listNotes] at h
  rw [if_pos (by omega)] at h
  cases h

theorem listNotes_mem {db : List Note} {uid : String} {d : Bool} {limP : Option Int}
    {cur : Option String} {r : ListResult}
    (h : listNotes db uid d limP cur = some r) :
    ∀ n ∈ r.notes, n ∈ db ∧ viewCond uid d (resolveBound db d cur) n = true := by
  have hpos := listNotes_pos h
  intro n hn
  by_cases hsmall :
      (queryRows db uid d (resolveBound db d cur)).length ≤ (resolveLimit limP).toNat
  · rw [listNotes_small hpos hsmall] at h
    cases h
    exact mem_queryRows.mp hn
  · push_neg at hsmall
    rw [listNotes_big hpos hsmall] at h
    cases h
    exact mem_queryRows.mp ((List.take_sublist _ _).subset hn)

theorem find?_unique {db : List Note} {p : Note → Bool} {n : Note}
    (hids : (db.map Note.id).Nodup) (hn : n ∈ db) (hpn : p n = true)
    (hid : ∀ x ∈ db, p x = true → x.id = n.id) :
    db.find? p = some n := by
  cases hfind : db.find? p with
  | none =>
    rw [List.find?_eq_none] at hfind
    exact absurd hpn (hfind n hn)
  | some x =>
    have hx := List.find?_some hfind
    have hmem := List.mem_of_find?_eq_some hfind
    have hxn : x = n := List.inj_on_of_nodup_map hids hmem hn (hid x hmem hx)
    rw [hxn]

/-! ## Claims -/

/-- Claim C1: restoring a note that exists and is owned by the caller but is
currently active answers `NotFound` with the table left completely
unchanged; the restore endpoint succeeds — returning the row rewritten
with `deletedAt = null` and `updatedAt = now` — exactly when a row
matching the id, the owner, and `deletedAt IS NOT NULL` exists. -/
theorem C1_restore_active_not_found (db : List Note) (uid i : String) (now : Nat)
    (hids : (db.map Note.id).Nodup) :
    (∀ n ∈ db, n.id = i → n.userId = uid → n.deletedAt = none →
      restoreNote db uid i now = (db, none)) ∧
    ((restoreNote db uid i now).2 ≠ none ↔
      ∃ n ∈ db, n.id = i ∧ n.userId = uid ∧ n.deletedAt ≠ none) ∧
    (∀ n ∈ db, n.id = i → n.userId = uid → n.deletedAt ≠ none →
      (restoreNote db uid i now).2
        = some { n with deletedAt := none, updatedAt := now }) := by
  have hfind2 : ∀ n ∈ db, n.id = i → n.userId = uid → n.deletedAt ≠ none →
      db.find? (fun m => m.id == i && m.userId == uid && m.deletedAt.isSome) = some n := by
    intro n hn hid hu hdel
    apply find?_unique hids hn
    · simp only [Bool.and_eq_true, beq_iff_eq]
      exact ⟨⟨hid, hu⟩, Option.isSome_iff_ne_none.mpr hdel⟩
    · intro x hx hpx
      simp only [Bool.and_eq_true, beq_iff_eq] at hpx
      rw [hpx.1.1, hid]
  have hfind3 : ∀ n ∈ db, n.id = i → n.userId = uid →
      db.find? (fun m => m.id == i && m.userId == uid) = some n := by
    intro n hn hid hu
    apply find?_unique hids hn
    · simp only [Bool.and_eq_true, beq_iff_eq]
      exact ⟨hid, hu⟩
    · intro x hx hpx
      simp only [Bool.and_eq_true, beq_iff_eq] at hpx
      rw [hpx.1, hid]
  refine ⟨?_, ⟨?_, ?_⟩, ?_⟩
  · intro n hn hid hu hact
    have hfind : db.find? (fun m => m.id == i && m.userId == uid && m.deletedAt.isSome)
        = none := by
      rw [List.find?_eq_none]
      intro x hx hpx
      simp only [Bool.and_eq_true, beq_iff_eq] at hpx
      have hxn : x = n := List.inj_on_of_nodup_map hids hx hn (by rw [hpx.1.1, hid])
      rw [hxn, hact] at hpx
      simp at hpx
    rw [restoreNote, hfind]
  · intro hne
    cases hfind : db.find? (fun m => m.id == i && m.userId == uid && m.deletedAt.isSome) with
    | none =>
      rw [restoreNote, hfind] at hne
      exact absurd rfl hne
    | some x =>
      have hx := List.find?_some hfind
      have hmem := List.mem_of_find?_eq_some hfind
      simp only [Bool.and_eq_true, beq_iff_eq] at hx
      exact ⟨x, hmem, hx.1.1, hx.1.2, Option.isSome_iff_ne_none.mp hx.2⟩
  · rintro ⟨n, hn, hid, hu, hdel⟩
    rw [restoreNote, hfind2 n hn hid hu hdel, hfind3 n hn hid hu]
    simp
  · intro n hn hid hu hdel
    rw [restoreNote, hfind2 n hn hid hu hdel, hfind3 n hn hid hu]
    simp only [Option.map_some']
    congr 1
    rw [restoreUpd, if_pos (by simp [hid, hu])]

/-- Witness for C1 at a concrete table: one active owned note; restore
answers `NotFound` and does not change the table, and the success
characterisation holds. -/
theorem C1_witness :
    restoreNote [Note.mk "a" "t" none "u" 1 1 none] "u" "a" 9
      = ([Note.mk "a" "t" none "u" 1 1 none], none) :=
  (C1_restore_active_not_found [Note.mk "a" "t" none "u" 1 1 none] "u" "a" 9
    (by decide)).1 (Note.mk "a" "t" none "u" 1 1 none) (by decide) rfl rfl rfl

/-- Claim C9: a successful list response never contains more than 50 notes,
whatever limit was requested, and never more than 20 when the limit
parameter is absent. -/
theorem C9_limit_cap (db : List Note) (uid : String) (d : Bool) (limP : Option Int)
    (cur : Option String) (r : ListResult)
    (h : listNotes db uid d limP cur = some r) :
    r.notes.length ≤ 50 ∧ (limP = none → r.notes.length ≤ 20) := by
  have hpos := listNotes_pos h
  have hcap : (resolveLimit limP).toNat ≤ 50 := by
    have h50 : resolveLimit limP ≤ 50 := min_le_right _ _
    omega
  have hlen : r.notes.length ≤ (resolveLimit limP).toNat := by
    by_cases hsmall :
        (queryRows db uid d (resolveBound db d cur)).length ≤ (resolveLimit limP).toNat
    · rw [listNotes_small hpos hsmall] at h
      cases h
      exact hsmall
    · push_neg at hsmall
      rw [listNotes_big hpos hsmall] at h
      cases h
      simp only [List.length_take]
      omega
  refine ⟨le_trans hlen hcap, fun hnone => ?_⟩
  subst hnone
  have h20 : resolveLimit none = 20 := by decide
  omega

/-- Witness for C9 at a concrete call: the empty table with no limit
parameter yields an empty page within both caps. -/
theorem C9_witness :
    (ListResult.mk [] none).notes.length ≤ 50 ∧
    ((none : Option Int) = none → (ListResult.mk [] none).notes.length ≤ 20) :=
  C9_limit_cap [] "u" false none none (ListResult.mk [] none) (by decide)

/-- Claim C10: `getById` is blind to the deletion state — a trashed note
(non-null `deletedAt`) is still returned, unchanged, to its owner; the
lookup filters only by id and owner. -/
theorem C10_getById_trashed (db : List Note) (uid i : String) (n : Note) (t : Nat)
    (hids : (db.map Note.id).Nodup) (hn : n ∈ db) (hid : n.id = i)
    (hu : n.userId = uid) (hd : n.deletedAt = some t) :
    getById db uid i = some n := by
  rw [getById]
  apply find?_unique hids hn
  · simp [hid, hu]
  · intro x hx hpx
    simp only [Bool.and_eq_true, beq_iff_eq] at hpx
    rw [hpx.1, hid]

/-- Witness for C10: a deleted note is returned to its owner with its
non-null `deletedAt` intact. -/
theorem C10_witness :
    getById [Note.mk "a" "t" none "u" 1 2 (some 3)] "u" "a"
      = some (Note.mk "a" "t" none "u" 1 2 (some 3)) :=
  C10_getById_trashed [Note.mk "a" "t" none "u" 1 2 (some 3)] "u" "a"
    (Note.mk "a" "t" none "u" 1 2 (some 3)) 3 (by decide) (by decide) rfl rfl rfl

/-- Claim C6: softDelete, restore and bulkRestore only ever touch
`deletedAt` and `updatedAt`: positionally, every row of the new table has
the same id, title, content, createdAt and owner as before. -/
theorem C6_frame (db : List Note) (uid i : String) (now : Nat) (ids : List JVal) :
    (∀ j : Nat, ((softDelete db uid i now).1[j]?).map frameKey
        = (db[j]?).map frameKey) ∧
    (∀ j : Nat, ((restoreNote db uid i now).1[j]?).map frameKey
        = (db[j]?).map frameKey) ∧
    (∀ out, bulkRestore db uid ids now = some out →
      ∀ j : Nat, (out.1[j]?).map frameKey = (db[j]?).map frameKey) := by
  have hsd : ∀ n, frameKey (softDeleteUpd uid i now n) = frameKey n := by
    intro n
    rw [softDeleteUpd]
    split <;> rfl
  have hrs : ∀ n, frameKey (restoreUpd uid i now n) = frameKey n := by
    intro n
    rw [restoreUpd]
    split <;> rfl
  refine ⟨?_, ?_, ?_⟩
  · intro j
    show ((db.map (softDeleteUpd uid i now))[j]?).map frameKey = (db[j]?).map frameKey
    rw [List.getElem?_map, Option.map_map]
    cases db[j]? <;> simp [hsd]
  · intro j
    cases hfind : db.find? (fun n => n.id == i && n.userId == uid && n.deletedAt.isSome) with
    | none => rw [restoreNote, hfind]
    | some x =>
      rw [restoreNote, hfind]
      show ((db.map (restoreUpd uid i now))[j]?).map frameKey = (db[j]?).map frameKey
      rw [List.getElem?_map, Option.map_map]
      cases db[j]? <;> simp [hrs]
  · intro out hout j
    rw [bulkRestore] at hout
    by_cases he : ids.isEmpty = true
    · rw [if_pos he] at hout
      cases hout
    · rw [if_neg he] at hout
      by_cases ha : (! ids.all JVal.isStr) = true
      · rw [if_pos ha] at hout
        cases hout
      · rw [if_neg ha] at hout
        cases hout
        show ((db.map _)[j]?).map frameKey = (db[j]?).map frameKey
        rw [List.getElem?_map, Option.map_map]
        cases db[j]? with
        | none => rfl
        | some n =>
          simp only [Option.map_some']
          show some (frameKey (if bulkCond uid (ids.filterMap JVal.asStr) n
            then { n with deletedAt := none, updatedAt := now } else n)) = some (frameKey n)
          split <;> rfl

/-- Witness for C6: the bulk part applied at a concrete one-note table
whose only note gets restored by the batch. -/
theorem C6_witness :
    ((([Note.mk "a" "t" none "u" 1 9 none], 1) :
        List Note × Nat).1[0]?).map frameKey
      = (([Note.mk "a" "t" none "u" 1 2 (some 3)] : List Note)[0]?).map frameKey :=
  (C6_frame [Note.mk "a" "t" none "u" 1 2 (some 3)] "u" "a" 9 [JVal.jstr "a"]).2.2
    ([Note.mk "a" "t" none "u" 1 9 none], 1) (by decide) 0

/-- Counterexample to claim C8 as stated: soft-deleting an already deleted
note at a later wall-clock time does not leave the stored state identical
to the state after the first soft-delete — `deletedAt` and `updatedAt`
are overwritten with the later time. -/
theorem C8_counterexample :
    (softDelete (softDelete [Note.mk "a" "t" none "u" 0 0 none] "u" "a" 1).1 "u" "a" 2).1
      ≠ (softDelete [Note.mk "a" "t" none "u" 0 0 none] "u" "a" 1).1 := by
  decide

/-- Claim C8, amended: retrying softDelete overwrites only the two
timestamps with the retry time (last write wins), so a retry at the same
wall-clock time leaves the stored state identical; retrying restore after
any restore is a pure no-op: it answers `NotFound` and changes nothing. -/
theorem C8_retry_amended (db : List Note) (uid i : String) (t1 t2 : Nat) :
    (softDelete (softDelete db uid i t1).1 uid i t2).1 = (softDelete db uid i t2).1 ∧
    (t2 = t1 →
      (softDelete (softDelete db uid i t1).1 uid i t2).1 = (softDelete db uid i t1).1) ∧
    restoreNote (restoreNote db uid i t1).1 uid i t2 = ((restoreNote db uid i t1).1, none) := by
  have hsd : ∀ s1 s2 : Nat,
      (softDelete (softDelete db uid i s1).1 uid i s2).1 = (softDelete db uid i s2).1 := by
    intro s1 s2
    show (db.map (softDeleteUpd uid i s1)).map (softDeleteUpd uid i s2)
      = db.map (softDeleteUpd uid i s2)
    rw [List.map_map]
    apply List.map_congr_left
    intro n _
    by_cases h : (n.id == i && n.userId == uid) = true <;>
      simp [Function.comp, softDeleteUpd, h]
  refine ⟨hsd t1 t2, fun ht => ht ▸ hsd t1 t1, ?_⟩
  cases hfind : db.find? (fun m => m.id == i && m.userId == uid && m.deletedAt.isSome) with
  | none =>
    have h1 : restoreNote db uid i t1 = (db, none) := by
      rw [restoreNote, hfind]
    rw [h1]
    rw [restoreNote, hfind]
  | some x =>
    have h1 : (restoreNote db uid i t1).1 = db.map (restoreUpd uid i t1) := by
      rw [restoreNote, hfind]
    have hnone : (db.map (restoreUpd uid i t1)).find?
        (fun m => m.id == i && m.userId == uid && m.deletedAt.isSome) = none := by
      rw [List.find?_eq_none]
      intro y hy hpy
      obtain ⟨k, hk, rfl⟩ := List.mem_map.mp hy
      by_cases hmatch : (k.id == i && k.userId == uid) = true
      · rw [restoreUpd, if_pos hmatch] at hpy
        simp at hpy
      · rw [restoreUpd, if_neg hmatch] at hpy
        simp only [Bool.and_eq_true] at hpy
        exact hmatch (by simp only [Bool.and_eq_true]; exact hpy.1)
    rw [h1, restoreNote, hnone]

/-- Witness for C8: retrying softDelete at the same timestamp leaves the
concrete table unchanged. -/
theorem C8_witness :
    (softDelete (softDelete [Note.mk "a" "t" none "u" 0 0 none] "u" "a" 5).1 "u" "a" 5).1
      = (softDelete [Note.mk "a" "t" none "u" 0 0 none] "u" "a" 5).1 :=
  (C8_retry_amended [Note.mk "a" "t" none "u" 0 0 none] "u" "a" 5 5).2.1 rfl

theorem bulkCond_iff (uid : String) (ids : List String) (n : Note) :
    bulkCond uid ids n = true ↔
      n.id ∈ ids ∧ n.userId = uid ∧ n.deletedAt ≠ none := by
  simp [bulkCond, and_assoc, Option.isSome_iff_ne_none]

/-- Claim C3: bulk restore rejects the whole request exactly when the id
list is empty or contains a non-string; otherwise it succeeds (even with
nothing to do), restores `deletedAt = null, updatedAt = now` on precisely
the listed ids that are owned by the caller and currently deleted, leaves
every other row untouched, and reports the number of rows restored. -/
theorem C3_bulk_restore (db : List Note) (uid : String) (l : List JVal) (now : Nat) :
    (bulkRestore db uid l now = none ↔ l = [] ∨ ∃ v ∈ l, v.isStr = false) ∧
    (∀ out, bulkRestore db uid l now = some out →
      (∀ (j : Nat) (n : Note), db[j]? = some n →
        ((n.id ∈ l.filterMap JVal.asStr ∧ n.userId = uid ∧ n.deletedAt ≠ none →
            out.1[j]? = some { n with deletedAt := none, updatedAt := now }) ∧
         (¬ (n.id ∈ l.filterMap JVal.asStr ∧ n.userId = uid ∧ n.deletedAt ≠ none) →
            out.1[j]? = some n))) ∧
      out.2 = (db.filter (bulkCond uid (l.filterMap JVal.asStr))).length) := by
  constructor
  · rw [bulkRestore]
    by_cases he : l.isEmpty = true
    · rw [if_pos he]
      simp only [List.isEmpty_iff] at he
      simp [he]
    · rw [if_neg he]
      have hne : ¬ l = [] := by
        simpa [List.isEmpty_iff] using he
      by_cases ha : (! l.all JVal.isStr) = true
      · rw [if_pos ha]
        simp only [Bool.not_eq_true', List.all_eq_false] at ha
        obtain ⟨v, hv, hbad⟩ := ha
        simp only [true_iff]
        exact Or.inr ⟨v, hv, by simpa using hbad⟩
      · rw [if_neg ha]
        have hall : ∀ v ∈ l, v.isStr = true := by
          rw [← List.all_eq_true]
          revert ha
          cases l.all JVal.isStr <;> simp
        constructor
        · intro h
          simp at h
        · rintro (rfl | ⟨v, hv, hbad⟩)
          · exact absurd rfl hne
          · exact absurd (hall v hv) (by simp [hbad])
  · intro out hout
    rw [bulkRestore] at hout
    by_cases he : l.isEmpty = true
    · rw [if_pos he] at hout
      cases hout
    · rw [if_neg he] at hout
      by_cases ha : (! l.all JVal.isStr) = true
      · rw [if_pos ha] at hout
        cases hout
      · rw [if_neg ha] at hout
        cases hout
        refine ⟨?_, rfl⟩
        intro j n hjn
        constructor
        · intro hcond
          show ((db.map _)[j]?) = _
          rw [List.getElem?_map, hjn, Option.map_some']
          rw [if_pos ((bulkCond_iff uid (l.filterMap JVal.asStr) n).mpr hcond)]
        · intro hcond
          show ((db.map _)[j]?) = _
          rw [List.getElem?_map, hjn, Option.map_some']
          rw [if_neg (fun hb => hcond ((bulkCond_iff uid (l.filterMap JVal.asStr) n).mp hb))]

/-- Witness for C3: a batch of one owned deleted note and one foreign id
restores exactly the owned one and reports a count of 1. -/
theorem C3_witness :
    ((([Note.mk "a" "t" none "u" 1 9 none, Note.mk "b" "t" none "v" 1 2 (some 3)], 1) :
        List Note × Nat)).2
      = (([Note.mk "a" "t" none "u" 1 2 (some 3), Note.mk "b" "t" none "v" 1 2 (some 3)] :
          List Note).filter
            (bulkCond "u" ([JVal.jstr "a", JVal.jstr "b"].filterMap JVal.asStr))).length :=
  ((C3_bulk_restore [Note.mk "a" "t" none "u" 1 2 (some 3),
      Note.mk "b" "t" none "v" 1 2 (some 3)] "u" [JVal.jstr "a", JVal.jstr "b"] 9).2
    ([Note.mk "a" "t" none "u" 1 9 none, Note.mk "b" "t" none "v" 1 2 (some 3)], 1)
    (by decide)).2

theorem softDeleteUpd_id (uid i : String) (now : Nat) (n : Note) :
    (softDeleteUpd uid i now n).id = n.id := by
  rw [softDeleteUpd]
  split <;> rfl

theorem softDeleteUpd_userId (uid i : String) (now : Nat) (n : Note) :
    (softDeleteUpd uid i now n).userId = n.userId := by
  rw [softDeleteUpd]
  split <;> rfl

/-- Claim C4: soft-deleting an active owned note and then restoring it
returns, and stores, a note equal to the original in every field —
id, title, content, owner, createdAt, deletedAt — except `updatedAt`;
all other rows are untouched. -/
theorem C4_round_trip (db : List Note) (uid : String) (n : Note) (t1 t2 : Nat)
    (hids : (db.map Note.id).Nodup) (hn : n ∈ db) (hu : n.userId = uid)
    (hact : n.deletedAt = none) :
    (restoreNote (softDelete db uid n.id t1).1 uid n.id t2).2
        = some { n with updatedAt := t2 } ∧
    ∀ (j : Nat) (m : Note), db[j]? = some m →
      ((restoreNote (softDelete db uid n.id t1).1 uid n.id t2).1)[j]?
        = some (if m = n then { n with updatedAt := t2 } else m) := by
  have hf1n : softDeleteUpd uid n.id t1 n = { n with deletedAt := some t1, updatedAt := t1 } := by
    rw [softDeleteUpd, if_pos (by simp [hu])]
  have hids1 : ((db.map (softDeleteUpd uid n.id t1)).map Note.id).Nodup := by
    rw [List.map_map]
    have hcomp : (Note.id ∘ softDeleteUpd uid n.id t1) = Note.id :=
      funext (fun m => softDeleteUpd_id uid n.id t1 m)
    rw [hcomp]
    exact hids
  have hmem1 : softDeleteUpd uid n.id t1 n ∈ db.map (softDeleteUpd uid n.id t1) :=
    List.mem_map_of_mem _ hn
  have hfindA : (db.map (softDeleteUpd uid n.id t1)).find?
      (fun m => m.id == n.id && m.userId == uid && m.deletedAt.isSome)
      = some (softDeleteUpd uid n.id t1 n) := by
    apply find?_unique hids1 hmem1
    · rw [hf1n]
      simp [hu]
    · intro x hx hpx
      simp only [Bool.and_eq_true, beq_iff_eq] at hpx
      rw [hpx.1.1, softDeleteUpd_id]
  have hfindB : (db.map (softDeleteUpd uid n.id t1)).find?
      (fun m => m.id == n.id && m.userId == uid)
      = some (softDeleteUpd uid n.id t1 n) := by
    apply find?_unique hids1 hmem1
    · rw [hf1n]
      simp [hu]
    · intro x hx hpx
      simp only [Bool.and_eq_true, beq_iff_eq] at hpx
      rw [hpx.1, softDeleteUpd_id]
  have hrec : ({ n with deletedAt := none, updatedAt := t2 } : Note)
      = { n with updatedAt := t2 } := by
    rw [← hact]
  constructor
  · show (restoreNote (db.map (softDeleteUpd uid n.id t1)) uid n.id t2).2 = _
    rw [restoreNote, hfindA, hfindB]
    simp only [Option.map_some']
    congr 1
    rw [restoreUpd, if_pos (by rw [hf1n]; simp [hu]), hf1n]
    exact hrec
  · intro j m hjm
    have hm : m ∈ db := List.getElem?_mem hjm
    show ((restoreNote (db.map (softDeleteUpd uid n.id t1)) uid n.id t2).1)[j]? = _
    rw [restoreNote, hfindA]
    show ((db.map (softDeleteUpd uid n.id t1)).map (restoreUpd uid n.id t2))[j]? = _
    rw [List.map_map, List.getElem?_map, hjm, Option.map_some']
    congr 1
    by_cases hmn : m = n
    · subst hmn
      rw [if_pos rfl]
      show restoreUpd uid m.id t2 (softDeleteUpd uid m.id t1 m) = _
      rw [hf1n, restoreUpd, if_pos (by simp [hu]), hrec]
    · rw [if_neg hmn]
      have hmid : (m.id == n.id) = false := by
        by_contra hb
        simp only [Bool.not_eq_false, beq_iff_eq] at hb
        exact hmn (List.inj_on_of_nodup_map hids hm hn hb)
      show restoreUpd uid n.id t2 (softDeleteUpd uid n.id t1 m) = m
      rw [softDeleteUpd, if_neg (by simp [hmid]), restoreUpd, if_neg (by simp [hmid])]

/-- Witness for C4 at a concrete table: delete-then-restore reproduces the
note with only `updatedAt` changed. -/
theorem C4_witness :
    (restoreNote (softDelete [Note.mk "a" "t" (some "c") "u" 1 1 none] "u" "a" 5).1 "u" "a" 9).2
      = some (Note.mk "a" "t" (some "c") "u" 1 9 none) :=
  (C4_round_trip [Note.mk "a" "t" (some "c") "u" 1 1 none] "u"
    (Note.mk "a" "t" (some "c") "u" 1 1 none) 5 9 (by decide) (by decide) rfl rfl).1

/-- Counterexample to claim C2 as stated: two active owned notes sharing
`createdAt = 5`, listed with limit 1.  Full pagination of the active view
returns only the note `"a"` (the strict `<` cursor bound skips the
tied note `"b"`), the trash view is empty, and so the owned active note
`"b"` appears in neither view.  Both paginations terminate on their own
(`nextCursor = null`); the fuel of 3 is not the limiting factor. -/
theorem C2_counterexample :
    listAll [Note.mk "a" "t" none "u" 5 5 none, Note.mk "b" "t" none "u" 5 5 none]
        "u" false (some 1) 3
      = some [Note.mk "a" "t" none "u" 5 5 none] ∧
    listAll [Note.mk "a" "t" none "u" 5 5 none, Note.mk "b" "t" none "u" 5 5 none]
        "u" true (some 1) 3
      = some [] ∧
    Note.mk "b" "t" none "u" 5 5 none ≠ Note.mk "a" "t" none "u" 5 5 none := by
  decide

/-- Claim C2, amended: each active page only ever contains notes with
`deletedAt = null` and each trash page only notes with non-null
`deletedAt`, for every table, owner, limit and cursor.  Partition
completeness across full pagination holds provided the ordering keys are
pairwise distinct within each of the caller's two partitions (`createdAt`
among the active notes, `deletedAt` among the trashed ones): then every
note owned by the caller appears in exactly one of the two fully
paginated views.  (With tied keys at a page boundary the strict cursor
bound can skip rows, as the counterexample shows.) -/
theorem C2_partition_amended (db : List Note) (uid : String) (limP : Option Int)
    (fuel : Nat)
    (hids : (db.map Note.id).Nodup)
    (hkA : ((db.filter (baseCond uid false)).map (keyOf false)).Nodup)
    (hkT : ((db.filter (baseCond uid true)).map (keyOf true)).Nodup)
    (hlim : 0 < resolveLimit limP) (hfuel : db.length < fuel) :
    (∀ (db' : List Note) (uid' : String) (limP' : Option Int) (cur' : Option String)
        (r : ListResult), listNotes db' uid' false limP' cur' = some r →
        ∀ n ∈ r.notes, n.deletedAt = none) ∧
    (∀ (db' : List Note) (uid' : String) (limP' : Option Int) (cur' : Option String)
        (r : ListResult), listNotes db' uid' true limP' cur' = some r →
        ∀ n ∈ r.notes, n.deletedAt ≠ none) ∧
    ∃ A T, listAll db uid false limP fuel = some A ∧
      listAll db uid true limP fuel = some T ∧
      ∀ n ∈ db, n.userId = uid →
        ((n.deletedAt = none → n ∈ A ∧ n ∉ T) ∧
         (n.deletedAt ≠ none → n ∈ T ∧ n ∉ A)) := by
  refine ⟨?_, ?_, ?_⟩
  · intro db' uid' limP' cur' r h n hn
    obtain ⟨_, hview⟩ := listNotes_mem h n hn
    simp only [viewCond, baseCond, Bool.and_eq_true] at hview
    simpa using hview.1.2
  · intro db' uid' limP' cur' r h n hn
    obtain ⟨_, hview⟩ := listNotes_mem h n hn
    simp only [viewCond, baseCond, Bool.and_eq_true] at hview
    have := hview.1.2
    simp only [if_true] at this
    exact Option.isSome_iff_ne_none.mp (by simpa using this)
  · refine ⟨queryRows db uid false none, queryRows db uid true none,
      listAll_spec db uid false limP fuel hids hkA hlim hfuel,
      listAll_spec db uid true limP fuel hids hkT hlim hfuel, ?_⟩
    intro n hn hu
    constructor
    · intro hdel
      constructor
      · exact mem_queryRows.mpr ⟨hn, by simp [viewCond, baseCond, boundCond, hu, hdel]⟩
      · intro hmem
        obtain ⟨_, hview⟩ := mem_queryRows.mp hmem
        simp [viewCond, baseCond, boundCond, hu, hdel] at hview
    · intro hdel
      constructor
      · exact mem_queryRows.mpr ⟨hn, by
          simp [viewCond, baseCond, boundCond, hu, Option.isSome_iff_ne_none, hdel]⟩
      · intro hmem
        obtain ⟨_, hview⟩ := mem_queryRows.mp hmem
        simp only [viewCond, baseCond, boundCond, Bool.and_eq_true] at hview
        exact hdel (by simpa using hview.1.2)

/-- Witness for C2 at a concrete table with distinct keys in both
partitions: two active notes (createdAt 1, 2) and one trashed note, each
in exactly one fully paginated view. -/
theorem C2_witness :
    ∃ A T,
      listAll [Note.mk "a" "t" none "u" 1 1 none, Note.mk "b" "t" none "u" 2 2 none,
        Note.mk "c" "t" none "u" 1 1 (some 5)] "u" false (some 1) 4 = some A ∧
      listAll [Note.mk "a" "t" none "u" 1 1 none, Note.mk "b" "t" none "u" 2 2 none,
        Note.mk "c" "t" none "u" 1 1 (some 5)] "u" true (some 1) 4 = some T ∧
      ∀ n ∈ [Note.mk "a" "t" none "u" 1 1 none, Note.mk "b" "t" none "u" 2 2 none,
        Note.mk "c" "t" none "u" 1 1 (some 5)], n.userId = "u" →
        ((n.deletedAt = none → n ∈ A ∧ n ∉ T) ∧
         (n.deletedAt ≠ none → n ∈ T ∧ n ∉ A)) :=
  (C2_partition_amended [Note.mk "a" "t" none "u" 1 1 none,
      Note.mk "b" "t" none "u" 2 2 none, Note.mk "c" "t" none "u" 1 1 (some 5)]
    "u" (some 1) 4 (by decide) (by decide) (by decide) (by decide) (by decide)).2.2

/-- Counterexample to claim C5 as stated: a cursor id owned by a different
user (`"x"`, owned by `"v"`) does not behave like a nonexistent cursor id
(`"zz"`): the foreign note's `createdAt` is read back and applied as the
page bound, producing a different page for caller `"u"`. -/
theorem C5_counterexample :
    (Note.mk "x" "t" none "v" 2 2 none).userId ≠ "u" ∧
    (∀ m ∈ [Note.mk "a" "t" none "u" 1 1 none, Note.mk "b" "t" none "u" 2 2 none,
        Note.mk "x" "t" none "v" 2 2 none], m.id ≠ "zz") ∧
    listNotes [Note.mk "a" "t" none "u" 1 1 none, Note.mk "b" "t" none "u" 2 2 none,
        Note.mk "x" "t" none "v" 2 2 none] "u" false none (some "x")
      ≠ listNotes [Note.mk "a" "t" none "u" 1 1 none, Note.mk "b" "t" none "u" 2 2 none,
        Note.mk "x" "t" none "v" 2 2 none] "u" false none (some "zz") := by
  decide

/-- Claim C5, amended: cursor resolution is not scoped to the caller — the
bound is read from whichever row has the cursor id, whoever owns it, so a
foreign-owned cursor id can change the caller's page.  What does hold:
a cursor id matching no row at all behaves exactly like no cursor, and
every note a list call returns belongs to the caller, so no other user's
note ever appears in the page itself. -/
theorem C5_cursor_amended (db : List Note) (uid : String) (d : Bool) (limP : Option Int)
    (c : String) :
    (∀ n, db.find? (fun m => m.id == c) = some n →
      resolveBound db d (some c) = (if d then n.deletedAt else some n.createdAt)) ∧
    (db.find? (fun m => m.id == c) = none →
      listNotes db uid d limP (some c) = listNotes db uid d limP none) ∧
    (∀ (cur : Option String) (r : ListResult), listNotes db uid d limP cur = some r →
      ∀ m ∈ r.notes, m.userId = uid) := by
  refine ⟨?_, ?_, ?_⟩
  · intro n hfind
    rw [resolveBound, hfind]
  · intro hnone
    have h1 : resolveBound db d (some c) = none := by
      rw [resolveBound, hnone]
    have h2 : resolveBound db d (none : Option String) = none := rfl
    simp only [listNotes, h1, h2]
  · intro cur r h m hm
    obtain ⟨_, hview⟩ := listNotes_mem h m hm
    simp only [viewCond, baseCond, Bool.and_eq_true, beq_iff_eq] at hview
    exact hview.1.1

/-- Witness for C5: the foreign-owned cursor row's `createdAt` becomes the
bound for caller `"u"`. -/
theorem C5_witness :
    resolveBound [Note.mk "x" "t" none "v" 2 2 none] false (some "x") = some 2 :=
  (C5_cursor_amended [Note.mk "x" "t" none "v" 2 2 none] "u" false none "x").1
    (Note.mk "x" "t" none "v" 2 2 none) (by decide)

/-- Claim C7: with 25 active owned notes created at strictly increasing
times, a list call with limit 20 returns the 20 most recent notes in
createdAt-descending order and a `nextCursor` equal to the id of the 20th
(last) returned row; following that cursor returns the remaining 5 notes
with `nextCursor = null`.  In general, a page's `nextCursor` is the id of
its last row exactly when the full query result exceeded the limit (the
limit + 1 probe row was fetched and trimmed), and `null` otherwise. -/
theorem C7_pagination (db : List Note) (uid : String) (ns : List Note)
    (hids : (db.map Note.id).Nodup)
    (hfilter : db.filter (baseCond uid false) = ns)
    (hinc : ns.Pairwise (fun a b => a.createdAt < b.createdAt))
    (hlen : ns.length = 25) :
    (∃ c : Note,
      (ns.reverse.take 20).getLast? = some c ∧
      listNotes db uid false (some 20) none
        = some ⟨ns.reverse.take 20, some c.id⟩ ∧
      listNotes db uid false (some 20) (some c.id)
        = some ⟨ns.reverse.drop 20, none⟩) ∧
    (∀ (db' : List Note) (uid' : String) (d' : Bool) (limP' : Option Int)
        (cur' : Option String) (r : ListResult),
      listNotes db' uid' d' limP' cur' = some r →
      ((resolveLimit limP').toNat
          < (queryRows db' uid' d' (resolveBound db' d' cur')).length →
        r.nextCursor = r.notes.getLast?.map (fun n => n.id) ∧ r.nextCursor ≠ none) ∧
      ((queryRows db' uid' d' (resolveBound db' d' cur')).length
          ≤ (resolveLimit limP').toNat →
        r.nextCursor = none)) := by
  constructor
  · have hkA : ((db.filter (baseCond uid false)).map (keyOf false)).Nodup := by
      rw [hfilter]
      exact List.pairwise_map.mpr (hinc.imp fun h => Nat.ne_of_lt h)
    have hS : queryRows db uid false none = ns.reverse := by
      apply eq_of_perm_of_pairwise_lt false
      · have hp1 : (queryRows db uid false none).Perm ns := by
          rw [queryRows, filter_viewCond_none, hfilter]
          exact sortDesc_perm false ns
        exact hp1.trans (List.reverse_perm ns).symm
      · exact queryRows_none_pairwise_lt hkA
      · rw [List.pairwise_reverse]
        exact hinc
    have hrb : resolveBound db false (none : Option String) = none := rfl
    have hpos : 0 < resolveLimit (some 20) := by decide
    have h20n : (resolveLimit (some 20)).toNat = 20 := by decide
    have hSlen : (queryRows db uid false (resolveBound db false none)).length = 25 := by
      rw [hrb, hS, List.length_reverse, hlen]
    obtain ⟨c, hc⟩ : ∃ c, (ns.reverse.take 20).getLast? = some c := by
      apply Option.isSome_iff_exists.mp
      apply List.getLast?_isSome.mpr
      intro hnil
      have := congrArg List.length hnil
      rw [List.length_take, List.length_nil, List.length_reverse, hlen] at this
      omega
    obtain ⟨t, hdecomp⟩ := List.getLast?_eq_some_iff.mp hc
    have hcns : c ∈ ns := by
      apply List.mem_reverse.mp
      apply (List.take_sublist 20 ns.reverse).subset
      rw [hdecomp]
      exact List.mem_append_right _ (by simp)
    have hcdb : c ∈ db ∧ baseCond uid false c = true := by
      have : c ∈ db.filter (baseCond uid false) := by
        rw [hfilter]
        exact hcns
      exact ⟨List.mem_of_mem_filter this, List.of_mem_filter this⟩
    have hres2 : resolveBound db false (some c.id) = some (keyOf false c) :=
      resolveBound_self hids hcdb.1 hcdb.2
    have hdrop : queryRows db uid false (some (keyOf false c))
        = (queryRows db uid false none).drop 20 := by
      apply queryRows_drop db uid false none hkA
      rw [hS]
      exact hdecomp
    have hpage1 : listNotes db uid false (some 20) none
        = some ⟨ns.reverse.take 20, some c.id⟩ := by
      rw [listNotes_big hpos (by rw [hSlen, h20n]; omega), h20n, hrb, hS, hc]
      rfl
    have hpage2 : listNotes db uid false (some 20) (some c.id)
        = some ⟨ns.reverse.drop 20, none⟩ := by
      have hsmall : (queryRows db uid false (resolveBound db false (some c.id))).length
          ≤ (resolveLimit (some 20)).toNat := by
        rw [hres2, hdrop, List.length_drop, hS, List.length_reverse, hlen, h20n]
        omega
      rw [listNotes_small hpos hsmall, hres2, hdrop, hS]
    exact ⟨c, hc, hpage1, hpage2⟩
  · intro db' uid' d' limP' cur' r h
    have hpos := listNotes_pos h
    constructor
    · intro hbig
      rw [listNotes_big hpos hbig] at h
      cases h
      refine ⟨rfl, ?_⟩
      obtain ⟨c, hc⟩ : ∃ c,
          ((queryRows db' uid' d' (resolveBound db' d' cur')).take
            (resolveLimit limP').toNat).getLast? = some c := by
        apply Option.isSome_iff_exists.mp
        apply List.getLast?_isSome.mpr
        intro hnil
        have := congrArg List.length hnil
        rw [List.length_take, List.length_nil] at this
        omega
      show (((queryRows db' uid' d' (resolveBound db' d' cur')).take
        (resolveLimit limP').toNat).getLast?.map (fun n => n.id)) ≠ none
      rw [hc]
      simp
    · intro hsmall
      rw [listNotes_small hpos hsmall] at h
      cases h
      rfl

/-- Witness for C7: 25 concrete notes with createdAt 1..25; the theorem's
scenario holds at this table. -/
theorem C7_witness :
    ∃ c : Note,
      ((((List.range 25).map (fun k =>
          Note.mk (toString k) "t" none "u" (k+1) (k+1) none)).reverse.take 20).getLast?
        = some c) ∧
      listNotes ((List.range 25).map (fun k =>
          Note.mk (toString k) "t" none "u" (k+1) (k+1) none)) "u" false (some 20) none
        = some ⟨((List.range 25).map (fun k =>
            Note.mk (toString k) "t" none "u" (k+1) (k+1) none)).reverse.take 20, some c.id⟩ ∧
      listNotes ((List.range 25).map (fun k =>
          Note.mk (toString k) "t" none "u" (k+1) (k+1) none)) "u" false (some 20) (some c.id)
        = some ⟨((List.range 25).map (fun k =>
            Note.mk (toString k) "t" none "u" (k+1) (k+1) none)).reverse.drop 20, none⟩ :=
  (C7_pagination ((List.range 25).map (fun k =>
      Note.mk (toString k) "t" none "u" (k+1) (k+1) none)) "u"
    ((List.range 25).map (fun k => Note.mk (toString k) "t" none "u" (k+1) (k+1) none))
    (by decide) (by decide) (by decide) (by decide)).1
